import Mathlib

/-!
Shallow embedding of the SDU battery preprocessing pipeline
(`preprocess_SDU.py`) and verification of its specification claims.

Real-valued measurements (current, time, voltage, capacities) are modelled
over `ℚ`; raw cycle indices over `ℤ`.  External collaborators are modelled
by their observable interface: the skip/resume check (`check_processed_file`)
is a boolean per battery group, the persistence collaborator
(`dump_single_file`) is modelled by collecting the dumped records in a list,
and a raw CSV file is either unreadable (its `pd.read_csv` raises) or a list
of battery groups.  Exceptions are modelled with `Except`.
-/

set_option autoImplicit false

attribute [local semireducible] Rat.add Rat.mul Rat.sub Rat.inv

namespace SDU

/-- Python `max(xs)` for a nonempty list; the `0` default is only reached on
`[]`, where the callers in the source guard with a length check first. -/
def listMax : List ℚ → ℚ
  | [] => 0
  | x :: xs => xs.foldl max x

/-- `np.mean(xs)`: arithmetic mean. -/
def listMean (xs : List ℚ) : ℚ := xs.sum / (xs.length : ℚ)

/-- `np.median(xs)`: sort ascending; middle element for odd length, mean of
the two middle elements for even length.  (`0` on `[]`, unreached: the code
checks `len(Qd) == 0` before taking the median.) -/
def listMedian (xs : List ℚ) : ℚ :=
  let s := xs.insertionSort (· ≤ ·)
  if xs.length = 0 then 0
  else if xs.length % 2 = 1 then s.getD (xs.length / 2) 0
  else (s.getD (xs.length / 2 - 1) 0 + s.getD (xs.length / 2) 0) / 2

/-- One step of the `calc_Q` loop body (`preprocess_SDU.py` lines 163-168):
given the running total `qprev`, the previous time sample `tprev` and the
current (current, time) sample `p`, produce the new running total. -/
def stepQ (is_charge : Bool) (qprev tprev : ℚ) (p : ℚ × ℚ) : ℚ :=
  if is_charge = true ∧ 0 < p.1 then qprev + p.1 * (p.2 - tprev) / 3600
  else if is_charge = false ∧ p.1 < 0 then qprev - p.1 * (p.2 - tprev) / 3600
  else qprev

/-- The loop of `calc_Q` over the samples with index `≥ 1`, carrying the
previous accumulator value and previous time sample. -/
def calcQaux (is_charge : Bool) (qprev tprev : ℚ) : List (ℚ × ℚ) → List ℚ
  | [] => []
  | p :: ps =>
    stepQ is_charge qprev tprev p ::
      calcQaux is_charge (stepQ is_charge qprev tprev p) p.2 ps

/-- `calc_Q(I, t, is_charge)` (`preprocess_SDU.py` lines 156-169):
`Q = np.zeros_like(I)` followed by the accumulation loop from index 1.
The callers always pass `I` and `t` of equal length (both are columns of the
same cycle's rows); for mismatched lengths the source would fault and this
embedding returns a junk value, and every theorem assumes equal lengths. -/
def calc_Q (I t : List ℚ) (is_charge : Bool) : List ℚ :=
  match I, t with
  | _ :: Is, t0 :: ts => 0 :: calcQaux is_charge 0 t0 (Is.zip ts)
  | _, _ => []

/-- The loop of `organize_cycle_index` (`preprocess_SDU.py` lines 178-182):
`current_cycle` is the counter, `prev_value` the previous *raw* value (the
Python loop reads `cycle_index[i]` before overwriting it, so comparisons are
always against raw values). -/
def organizeAux (current_cycle prev_value : ℤ) : List ℤ → List ℤ
  | [] => []
  | y :: ys =>
    if y ≠ prev_value then
      (current_cycle + 1) :: organizeAux (current_cycle + 1) y ys
    else
      current_cycle :: organizeAux current_cycle prev_value ys

/-- `organize_cycle_index` (`preprocess_SDU.py` lines 172-183).  The body
unconditionally reads `cycle_index[0]`, which fails on an empty input
(an `IndexError` under NumPy semantics; an out-of-bounds read under the
`@njit` compilation actually applied, whose bounds checking is off), so the
empty case is a failure, modelled as `none`. -/
def organize_cycle_index : List ℤ → Option (List ℤ)
  | [] => none
  | x :: xs => some (x :: organizeAux x x xs)

/-- The element `scipy.signal.medfilt` places at position `i`: the rank
`k / 2` order statistic (the median, for odd `k`) of the zero-padded window
of width `k` centred at `i`. -/
def medfiltAt (xs : List ℚ) (k : ℕ) (i : ℕ) : ℚ :=
  let m := k / 2
  let window := (List.range k).map (fun j =>
    let idx : ℤ := (i : ℤ) + (j : ℤ) - (m : ℤ)
    if 0 ≤ idx ∧ idx < (xs.length : ℤ) then xs.getD idx.toNat 0 else 0)
  (window.insertionSort (· ≤ ·)).getD m 0

/-- The output list of `scipy.signal.medfilt xs k` when `k` is accepted. -/
def medfiltList (xs : List ℚ) (k : ℕ) : List ℚ :=
  (List.range xs.length).map (medfiltAt xs k)

/-- `scipy.signal.medfilt(xs, k)`: raises `ValueError` ("Each element of
kernel_size should be odd") for an even kernel size, modelled as `none`;
otherwise the zero-padded sliding median. -/
def medfilt (xs : List ℚ) (k : ℕ) : Option (List ℚ) :=
  if k % 2 = 1 then some (medfiltList xs k) else none

/-- The kernel size the driver passes to `medfilt`
(`preprocess_SDU.py` lines 109-112): `21` if at least 21 cycles exist,
otherwise `min(len(Qd), 5)`. -/
def sduWindow (n : ℕ) : ℕ := if n ≥ 21 then 21 else min n 5

/-- Modelled from the spec claim: the window the claim says is used — the
computed size clamped to the nearest valid odd window size below it.
(Comparison definition only; the source performs no clamping.) -/
def claimedWindow (n : ℕ) : ℕ :=
  if sduWindow n % 2 = 0 then sduWindow n - 1 else sduWindow n

/-- One row of the raw CSV for a battery: `Cycle_Index`, `Test_Time(s)`,
`Current(A)`, `Voltage(V)`.  (`Battery_ID` is the grouping key and `date` is
a constant placeholder, so neither is carried.) -/
structure Row where
  cycle_index : ℤ
  test_time : ℚ
  current : ℚ
  voltage : ℚ
deriving Repr, DecidableEq

/-- The fields of `batteryml.CycleData` that the pipeline writes. -/
structure CycleData where
  cycle_number : ℕ
  voltage_in_V : List ℚ
  current_in_A : List ℚ
  time_in_s : List ℚ
  charge_capacity_in_Ah : List ℚ
  discharge_capacity_in_Ah : List ℚ
deriving Repr, DecidableEq

/-- The computed fields of `batteryml.BatteryData`; the remaining fields of
the constructor call (cell id, voltage limits, SOC interval, materials) are
constants and are omitted. -/
structure BatteryData where
  cycle_data : List CycleData
  nominal_capacity_in_Ah : ℚ
deriving Repr, DecidableEq

/-- `battery_df.sort_values(['Test_Time(s)'])`: sort rows by test time.
The source's sort algorithm leaves the order of equal keys unspecified;
this embedding uses a stable sort. -/
def sortRows (rows : List Row) : List Row :=
  rows.insertionSort (fun a b => a.test_time ≤ b.test_time)

/-- Split a key-annotated row list into maximal runs of equal keys.  Because
the normalized cycle index column is non-decreasing along the rows, these
runs are exactly the (key-sorted) groups of
`processed_df.groupby(['date', 'Cycle_Index'])` (`date` is constant). -/
def groupRuns : List (ℤ × Row) → List (List (ℤ × Row))
  | [] => []
  | p :: ps =>
    match groupRuns ps with
    | [] => [[p]]
    | [] :: gs => [p] :: gs
    | (q :: g) :: gs =>
      if p.1 = q.1 then (p :: q :: g) :: gs else [p] :: (q :: g) :: gs

/-- Construction of one `CycleData` from one group
(`preprocess_SDU.py` lines 78-94): `cycle_number` is the 0-based group
enumeration index. -/
def buildCycle (idx : ℕ) (rows : List Row) : CycleData :=
  let I := rows.map Row.current
  let t := rows.map Row.test_time
  { cycle_number := idx
    voltage_in_V := rows.map Row.voltage
    current_in_A := I
    time_in_s := t
    charge_capacity_in_Ah := calc_Q I t true
    discharge_capacity_in_Ah := calc_Q I t false }

/-- Sort, normalize the cycle index column, group by it, and build the
per-cycle records (`preprocess_SDU.py` lines 66-94).  `none` when the
battery group is empty (then `organize_cycle_index` faults); the driver's
`groupby('Battery_ID')` only ever produces nonempty groups. -/
def buildCycles (rows : List Row) : Option (List CycleData) :=
  let sorted := sortRows rows
  match organize_cycle_index (sorted.map Row.cycle_index) with
  | none => none
  | some norm =>
    let groups := (groupRuns (norm.zip sorted)).map (fun g => g.map Prod.snd)
    some (groups.enum.map (fun p => buildCycle p.1 p.2))

/-- Peak discharge capacity of one cycle (`preprocess_SDU.py` lines 98-102):
`max` of the discharge capacity sequence, `0.0` when it is empty. -/
def peakQd (c : CycleData) : ℚ :=
  if c.discharge_capacity_in_Ah.length > 0 then
    listMax c.discharge_capacity_in_Ah
  else 0

/-- The `Qd` peak list of a battery's cycles. -/
def batteryQd (cycles : List CycleData) : List ℚ := cycles.map peakQd

/-- `ths = np.median(abs(np.array(Qd) - Qd_med))`
(`preprocess_SDU.py` line 114). -/
def computeThs (Qd Qd_med : List ℚ) : ℚ :=
  listMedian ((Qd.zip Qd_med).map (fun p => |p.1 - p.2|))

/-- `should_keep = abs(np.array(Qd) - Qd_med) < 3 * ths`
(`preprocess_SDU.py` line 115), at index `i`. -/
def shouldKeep (Qd Qd_med : List ℚ) (ths : ℚ) (i : ℕ) : Bool :=
  decide (|Qd.getD i 0 - Qd_med.getD i 0| < 3 * ths)

/-- The full keep test of the cleaning loop
(`preprocess_SDU.py` line 119): `should_keep[i] and Qd[i] > 0.1`. -/
def keepB (Qd Qd_med : List ℚ) (i : ℕ) : Bool :=
  shouldKeep Qd Qd_med (computeThs Qd Qd_med) i && decide (Qd.getD i 0 > 1/10)

/-- The cleaning loop (`preprocess_SDU.py` lines 117-122): `i` is the
original cycle position, `idx` the running count of kept cycles; a kept
cycle gets `cycle_number := idx + 1`. -/
def cleanAux (Qd Qd_med : List ℚ) : ℕ → ℕ → List CycleData → List CycleData
  | _, _, [] => []
  | i, idx, c :: cs =>
    if keepB Qd Qd_med i then
      { c with cycle_number := idx + 1 } :: cleanAux Qd Qd_med (i + 1) (idx + 1) cs
    else cleanAux Qd Qd_med (i + 1) idx cs

/-- `clean_cycles` as computed by the source's loop. -/
def cleanCycles (cycles : List CycleData) (Qd Qd_med : List ℚ) : List CycleData :=
  cleanAux Qd Qd_med 0 0 cycles

/-- Renumber a list of cycles consecutively starting from `idx0 + 1`
(specification-side description of what the cleaning loop does to the
surviving cycles; used to state the filter claims). -/
def renumber (idx0 : ℕ) : List CycleData → List CycleData
  | [] => []
  | c :: cs => { c with cycle_number := idx0 + 1 } :: renumber (idx0 + 1) cs

/-- Erase the (renumbered) cycle number, for comparing cycle contents. -/
def stripNumber (c : CycleData) : CycleData := { c with cycle_number := 0 }

/-- Nominal capacity estimate (`preprocess_SDU.py` lines 129-130): mean of
the first (up to) 5 surviving cycles' peak discharge capacities, `1.0` if
none survive (unreached: the caller checks `len(clean_cycles) == 0` first). -/
def nominalCapacity (clean : List CycleData) : ℚ :=
  let initial := (clean.take 5).map (fun c => listMax c.discharge_capacity_in_Ah)
  if initial.length > 0 then listMean initial else 1

/-- The observable outcome of processing one battery group. -/
inductive BatteryOutcome where
  | skipped
  | dropped
  | dumped (b : BatteryData)
deriving Repr, DecidableEq

/-- Exceptions the per-battery pipeline can raise (uncaught in the source). -/
inductive PipelineError where
  | emptyInput
  | evenKernel
deriving Repr, DecidableEq

/-- Processing of one battery group (`preprocess_SDU.py` lines 48-151):
skip/resume check, cycle construction, peak extraction, median filtering,
outlier cleaning, and record assembly.  `.skipped` increments the skip
counter, `.dropped` is a `continue` with no counter change, `.dumped`
persists a record and increments the processed counter. -/
def processBattery (alreadyProcessed : Bool) (rows : List Row) :
    Except PipelineError BatteryOutcome :=
  if alreadyProcessed then Except.ok BatteryOutcome.skipped
  else
    match buildCycles rows with
    | none => Except.error PipelineError.emptyInput
    | some cycles =>
      if (batteryQd cycles).length = 0 then Except.ok BatteryOutcome.dropped
      else
        match medfilt (batteryQd cycles) (sduWindow (batteryQd cycles).length) with
        | none => Except.error PipelineError.evenKernel
        | some Qd_med =>
          if (cleanCycles cycles (batteryQd cycles) Qd_med).length = 0 then
            Except.ok BatteryOutcome.dropped
          else Except.ok (BatteryOutcome.dumped
            { cycle_data := cleanCycles cycles (batteryQd cycles) Qd_med
              nominal_capacity_in_Ah :=
                nominalCapacity (cleanCycles cycles (batteryQd cycles) Qd_med) })

/-- One CSV input file: either its `pd.read_csv` raises (caught by the
driver, file skipped) or it yields a list of battery groups, each a
skip-check result plus the group's rows. -/
inductive FileInput where
  | unreadable
  | readable (groups : List (Bool × List Row))

/-- The per-file loop over battery groups (`preprocess_SDU.py` lines
48-151).  Result: (processed count, skip count, dumped records).  There is
no exception handler around this loop, so a battery error propagates. -/
def processGroups : List (Bool × List Row) →
    Except PipelineError (ℕ × ℕ × List BatteryData)
  | [] => Except.ok (0, 0, [])
  | g :: gs =>
    match processBattery g.1 g.2 with
    | Except.error e => Except.error e
    | Except.ok r =>
      match processGroups gs with
      | Except.error e => Except.error e
      | Except.ok (p, s, ds) =>
        match r with
        | BatteryOutcome.skipped => Except.ok (p, s + 1, ds)
        | BatteryOutcome.dropped => Except.ok (p, s, ds)
        | BatteryOutcome.dumped b => Except.ok (p + 1, s, b :: ds)

/-- The top-level `SDUPreprocessor.process` (`preprocess_SDU.py` lines
21-153) over the already-enumerated file list.  An unreadable file is
caught (`try/except` around `pd.read_csv`) and contributes nothing; a
battery-group exception propagates.  The returned triple extends the
source's `(process_batteries_num, skip_batteries_num)` return value with
the list of records passed to `dump_single_file`. -/
def process : List FileInput → Except PipelineError (ℕ × ℕ × List BatteryData)
  | [] => Except.ok (0, 0, [])
  | f :: fs =>
    match (match f with
           | FileInput.unreadable => Except.ok (0, 0, [])
           | FileInput.readable gs => processGroups gs) with
    | Except.error e => Except.error e
    | Except.ok (p₁, s₁, d₁) =>
      match process fs with
      | Except.error e => Except.error e
      | Except.ok (p₂, s₂, d₂) => Except.ok (p₁ + p₂, s₁ + s₂, d₁ ++ d₂)

/-- The battery groups a file input contributes. -/
def fileGroups : FileInput → List (Bool × List Row)
  | FileInput.unreadable => []
  | FileInput.readable gs => gs

/-- All battery groups of a batch, in processing order. -/
def allGroups (files : List FileInput) : List (Bool × List Row) :=
  (files.map fileGroups).flatten

/-- Whether a battery-group result is a dumped (processed) record. -/
def isDumpedB : Except PipelineError BatteryOutcome → Bool
  | Except.ok (BatteryOutcome.dumped _) => true
  | _ => false

/-- Whether a battery-group result is a dropped (uncounted) battery. -/
def isDroppedB : Except PipelineError BatteryOutcome → Bool
  | Except.ok BatteryOutcome.dropped => true
  | _ => false

/-- A battery group with exactly two cycles (one sample each): its peak
list has length 2, so the driver passes the even kernel size 2 to the
median filter. -/
def rowsTwoCycles : List Row := [⟨1, 0, 0, 3⟩, ⟨2, 1, 0, 3⟩]

/-- A battery group with three two-sample cycles, all with peak discharge
capacity 1 Ah (constant peaks). -/
def rowsConstPeaks : List Row :=
  [⟨1, 2, -3600, 3⟩, ⟨1, 3, -3600, 3⟩, ⟨2, 4, -3600, 3⟩,
   ⟨2, 5, -3600, 3⟩, ⟨3, 6, -3600, 3⟩, ⟨3, 7, -3600, 3⟩]

/-- The cycle list `buildCycles rowsConstPeaks` produces. -/
def cyclesConstPeaks : List CycleData :=
  [⟨0, [3, 3], [-3600, -3600], [2, 3], [0, 0], [0, 1]⟩,
   ⟨1, [3, 3], [-3600, -3600], [4, 5], [0, 0], [0, 1]⟩,
   ⟨2, [3, 3], [-3600, -3600], [6, 7], [0, 0], [0, 1]⟩]

/-- The median-filtered peak sequence of the constant-peaks battery. -/
def medConstPeaks : List ℚ := [1, 1, 1]

/-- Five cycles with varied peak discharge capacities 1, 3, 2, 5, 4 Ah. -/
def cyclesVaried : List CycleData :=
  [⟨0, [], [], [], [], [1]⟩, ⟨1, [], [], [], [], [3]⟩,
   ⟨2, [], [], [], [], [2]⟩, ⟨3, [], [], [], [], [5]⟩,
   ⟨4, [], [], [], [], [4]⟩]

/-- The median-filtered peak sequence of `cyclesVaried` (kernel 5). -/
def medVaried : List ℚ := [1, 2, 3, 3, 2]

/-- A sample batch: one readable file with an already-processed battery and
a one-sample battery (dropped by the filter), plus one unreadable file. -/
def sampleFiles : List FileInput :=
  [FileInput.readable [(true, []), (false, [⟨1, 0, 0, 3⟩])],
   FileInput.unreadable]

/-! ## Helper lemmas -/

lemma calcQaux_length (c : Bool) :
    ∀ (ps : List (ℚ × ℚ)) (q t : ℚ), (calcQaux c q t ps).length = ps.length := by
  intro ps
  induction ps with
  | nil => intro q t; rfl
  | cons p ps ih => intro q t; simp [calcQaux, ih]

lemma calcQaux_getD_zero (c : Bool) (q t : ℚ) (ps : List (ℚ × ℚ))
    (h : 0 < ps.length) :
    (calcQaux c q t ps).getD 0 0 = stepQ c q t (ps.getD 0 (0, 0)) := by
  cases ps with
  | nil => simp at h
  | cons p ps => rfl

lemma calcQaux_getD_succ (c : Bool) :
    ∀ (ps : List (ℚ × ℚ)) (q t : ℚ) (i : ℕ), i + 1 < ps.length →
      (calcQaux c q t ps).getD (i + 1) 0 =
        stepQ c ((calcQaux c q t ps).getD i 0) ((ps.getD i (0, 0)).2)
          (ps.getD (i + 1) (0, 0)) := by
  intro ps
  induction ps with
  | nil => intro q t i h; simp at h
  | cons p ps ih =>
    intro q t i h
    cases i with
    | zero =>
      cases ps with
      | nil => simp at h
      | cons r ps' => rfl
    | succ i' =>
      have h' : i' + 1 < ps.length := by
        simpa using h
      simp only [calcQaux, List.getD_cons_succ]
      exact ih _ _ _ h'

lemma zip_getD :
    ∀ (l₁ l₂ : List ℚ) (i : ℕ), i < l₁.length → i < l₂.length →
      (l₁.zip l₂).getD i (0, 0) = (l₁.getD i 0, l₂.getD i 0) := by
  intro l₁
  induction l₁ with
  | nil => intro l₂ i h _; simp at h
  | cons x l ih =>
    intro l₂ i h₁ h₂
    cases l₂ with
    | nil => simp at h₂
    | cons y l' =>
      cases i with
      | zero => rfl
      | succ i' =>
        simp only [List.zip_cons_cons, List.getD_cons_succ]
        exact ih l' i' (by simpa using h₁) (by simpa using h₂)

lemma zip_map_snd :
    ∀ (l₁ l₂ : List ℚ), l₁.length = l₂.length →
      (l₁.zip l₂).map Prod.snd = l₂ := by
  intro l₁
  induction l₁ with
  | nil =>
    intro l₂ h
    cases l₂ with
    | nil => rfl
    | cons y l' => simp at h
  | cons x l ih =>
    intro l₂ h
    cases l₂ with
    | nil => simp at h
    | cons y l' =>
      simp only [List.zip_cons_cons, List.map_cons]
      rw [ih l' (by simpa using h)]

lemma calcQaux_chain :
    ∀ (ps : List (ℚ × ℚ)) (qprev tprev : ℚ),
      (∀ p ∈ ps, p.1 ≤ 0) →
      List.Chain (· ≤ ·) tprev (ps.map Prod.snd) →
      List.Chain (· ≤ ·) qprev (calcQaux false qprev tprev ps) := by
  intro ps
  induction ps with
  | nil => intro q t _ _; exact List.Chain.nil
  | cons p ps ih =>
    intro q t hI ht
    simp only [List.map_cons] at ht
    cases ht with
    | cons hab hchain =>
      have hq : q ≤ stepQ false q t p := by
        unfold stepQ
        rw [if_neg (by simp)]
        by_cases hneg : p.1 < 0
        · rw [if_pos ⟨rfl, hneg⟩]
          have h3 : 0 ≤ -p.1 * (p.2 - t) / 3600 :=
            div_nonneg (mul_nonneg (by linarith) (by linarith)) (by norm_num)
          linarith
        · rw [if_neg (by simp [hneg])]
      exact List.Chain.cons hq
        (ih _ _ (fun r hr => hI r (List.mem_cons_of_mem _ hr)) hchain)

/-! ## Claims about `calc_Q` -/

/-- C3: for equal-length current and time sequences and either polarity
flag, `calc_Q` returns a sequence of the same length whose first element is
0 and which satisfies, at each subsequent index, the gated rectangular
integration recurrence: add `I[i] * (t[i] - t[i-1]) / 3600` when charging
with positive current, add `-I[i] * (t[i] - t[i-1]) / 3600` when
discharging with negative current, and carry the previous value otherwise. -/
theorem calc_Q_spec (I t : List ℚ) (c : Bool) (h : I.length = t.length) :
    (calc_Q I t c).length = I.length
    ∧ (0 < I.length → (calc_Q I t c).getD 0 0 = 0)
    ∧ (∀ i, i + 1 < I.length →
        (calc_Q I t c).getD (i + 1) 0 =
          (if c = true ∧ 0 < I.getD (i + 1) 0 then
            (calc_Q I t c).getD i 0 +
              I.getD (i + 1) 0 * (t.getD (i + 1) 0 - t.getD i 0) / 3600
          else if c = false ∧ I.getD (i + 1) 0 < 0 then
            (calc_Q I t c).getD i 0 -
              I.getD (i + 1) 0 * (t.getD (i + 1) 0 - t.getD i 0) / 3600
          else (calc_Q I t c).getD i 0)) := by
  cases I with
  | nil =>
    cases t with
    | nil => exact ⟨rfl, fun h0 => absurd h0 (by simp), fun i hi => absurd hi (by simp)⟩
    | cons t0 ts => simp at h
  | cons x Is =>
    cases t with
    | nil => simp at h
    | cons t0 ts =>
      have h' : Is.length = ts.length := by simpa using h
      have hzlen : (Is.zip ts).length = Is.length := by
        simp [List.length_zip, h']
      refine ⟨?_, fun _ => rfl, ?_⟩
      · show (0 :: calcQaux c 0 t0 (Is.zip ts)).length = Is.length + 1
        simp [calcQaux_length, hzlen]
      · intro i hi
        have hiIs : i < Is.length := by simpa using hi
        have hits : i < ts.length := h' ▸ hiIs
        show (0 :: calcQaux c 0 t0 (Is.zip ts)).getD (i + 1) 0 = _
        cases i with
        | zero =>
          simp only [List.getD_cons_succ, List.getD_cons_zero]
          rw [calcQaux_getD_zero c 0 t0 _ (hzlen ▸ hiIs),
            zip_getD Is ts 0 hiIs hits]
          rfl
        | succ i' =>
          have h1 : i' < Is.length := Nat.lt_of_succ_lt hiIs
          have h2 : i' < ts.length := h' ▸ h1
          simp only [List.getD_cons_succ]
          rw [calcQaux_getD_succ c _ 0 t0 i' (by omega),
            zip_getD Is ts i' h1 h2, zip_getD Is ts (i' + 1) hiIs hits]
          rfl

/-- Witness for C3 at concrete input `I = [1, 2]`, `t = [0, 1800]`,
charge polarity: the hypothesis holds and the second capacity sample is
`0 + 2 * 1800 / 3600 = 1`. -/
theorem calc_Q_spec_witness :
    ([(1 : ℚ), 2] : List ℚ).length = ([0, 1800] : List ℚ).length
    ∧ (calc_Q [(1 : ℚ), 2] [0, 1800] true).length = 2
    ∧ (calc_Q [(1 : ℚ), 2] [0, 1800] true).getD 1 0 = 1 := by
  have h := calc_Q_spec [(1 : ℚ), 2] [0, 1800] true rfl
  exact ⟨rfl, h.1, (h.2.2 0 (by norm_num)).trans (by decide)⟩

/-! ## Claims about `organize_cycle_index` -/

lemma organizeAux_length :
    ∀ (ys : List ℤ) (c p : ℤ), (organizeAux c p ys).length = ys.length := by
  intro ys
  induction ys with
  | nil => intro c p; rfl
  | cons y ys ih =>
    intro c p
    simp only [organizeAux]
    split <;> simp [ih]

lemma organizeAux_getD_zero (c p y : ℤ) (ys : List ℤ) :
    (organizeAux c p (y :: ys)).getD 0 0 = if y ≠ p then c + 1 else c := by
  simp only [organizeAux]
  split_ifs with h <;> rfl

lemma organizeAux_getD_succ :
    ∀ (ys : List ℤ) (c p : ℤ) (i : ℕ), i + 1 < ys.length →
      (organizeAux c p ys).getD (i + 1) 0 =
        (organizeAux c p ys).getD i 0 +
          (if ys.getD (i + 1) 0 ≠ ys.getD i 0 then 1 else 0) := by
  intro ys
  induction ys with
  | nil => intro c p i h; simp at h
  | cons y ys ih =>
    intro c p i h
    cases i with
    | zero =>
      cases ys with
      | nil => simp at h
      | cons r ys' =>
        by_cases h1 : y ≠ p
        · simp only [organizeAux, if_pos h1, List.getD_cons_succ, List.getD_cons_zero]
          split_ifs <;> simp
        · rw [not_not] at h1
          subst h1
          simp only [organizeAux, if_neg (not_not_intro rfl), List.getD_cons_succ,
            List.getD_cons_zero]
          split_ifs <;> simp
    | succ i' =>
      have h' : i' + 1 < ys.length := by simpa using h
      by_cases h1 : y ≠ p
      · simp only [organizeAux, if_pos h1, List.getD_cons_succ]
        exact ih _ _ _ h'
      · simp only [organizeAux, if_neg h1, List.getD_cons_succ]
        exact ih _ _ _ h'

/-- C4: for a non-empty raw cycle-index sequence, normalization succeeds
and returns a same-length sequence starting at the first raw value that
increments by exactly 1 wherever the raw value differs from its
predecessor and is constant elsewhere; in particular
`[1,1,2,2,2,3,1]` normalizes to `[1,1,2,2,2,3,4]`. -/
theorem organize_cycle_index_spec (x : ℤ) (xs : List ℤ) :
    ∃ ys, organize_cycle_index (x :: xs) = some ys
      ∧ ys.length = (x :: xs).length
      ∧ ys.getD 0 0 = x
      ∧ (∀ i, i + 1 < (x :: xs).length →
          ys.getD (i + 1) 0 = ys.getD i 0 +
            (if (x :: xs).getD (i + 1) 0 ≠ (x :: xs).getD i 0 then 1 else 0))
      ∧ organize_cycle_index [1, 1, 2, 2, 2, 3, 1] = some [1, 1, 2, 2, 2, 3, 4] := by
  refine ⟨x :: organizeAux x x xs, rfl, by simp [organizeAux_length], rfl, ?_, by decide⟩
  intro i hi
  cases i with
  | zero =>
    cases xs with
    | nil => simp at hi
    | cons r xs' =>
      simp only [List.getD_cons_succ, List.getD_cons_zero]
      rw [organizeAux_getD_zero]
      split_ifs <;> omega
  | succ i' =>
    have h' : i' + 1 < xs.length := by simpa using hi
    simp only [List.getD_cons_succ]
    exact organizeAux_getD_succ xs x x i' h'

/-- Witness for C4: the theorem instantiated at the spec's concrete
example sequence. -/
theorem organize_cycle_index_spec_witness :
    organize_cycle_index [1, 1, 2, 2, 2, 3, 1] = some [1, 1, 2, 2, 2, 3, 4] := by
  obtain ⟨ys, h1, h2, h3, h4, h5⟩ := organize_cycle_index_spec 1 [1, 2, 2, 2, 3, 1]
  exact h5

/-- C9 counterexample: on the empty sequence the source does not return
the input unchanged — it reads the first element of an empty array, which
is a failure (`none`), not `some []`. -/
theorem organize_empty_counterexample :
    organize_cycle_index ([] : List ℤ) = none
    ∧ organize_cycle_index ([] : List ℤ) ≠ some [] :=
  ⟨rfl, by simp [organize_cycle_index]⟩

/-- C9 amended: a single-element input is returned unchanged (the counter
never advances), but an empty input makes the initial element read fail
rather than returning the input unchanged. -/
theorem organize_small_input_spec :
    (∀ a : ℤ, organize_cycle_index [a] = some [a])
    ∧ organize_cycle_index ([] : List ℤ) = none :=
  ⟨fun _ => rfl, rfl⟩

/-- C8: with the discharge polarity flag, equal-length inputs, a
non-decreasing time sequence and all current samples `≤ 0`, the discharge
capacity sequence is non-decreasing. -/
theorem calc_Q_discharge_monotone (I t : List ℚ) (h : I.length = t.length)
    (hI : ∀ x ∈ I, x ≤ 0) (ht : List.Chain' (· ≤ ·) t) :
    List.Chain' (· ≤ ·) (calc_Q I t false) := by
  cases I with
  | nil =>
    cases t with
    | nil => exact List.chain'_nil
    | cons t0 ts => exact List.chain'_nil
  | cons x Is =>
    cases t with
    | nil => simp at h
    | cons t0 ts =>
      have h' : Is.length = ts.length := by simpa using h
      show List.Chain (· ≤ ·) 0 (calcQaux false 0 t0 (Is.zip ts))
      apply calcQaux_chain
      · intro p hp
        exact hI p.1 (List.mem_cons_of_mem _ (List.of_mem_zip hp).1)
      · rw [zip_map_snd Is ts h']
        exact ht

/-- Witness for C8: concrete discharge run with currents `[-1, -3600]` and
times `[0, 1]`; all hypotheses hold and the output is non-decreasing. -/
theorem calc_Q_discharge_monotone_witness :
    (∀ x ∈ [(-1 : ℚ), -3600], x ≤ 0)
    ∧ List.Chain' (· ≤ ·) (calc_Q [(-1 : ℚ), -3600] [0, 1] false) :=
  ⟨by decide,
   calc_Q_discharge_monotone [(-1 : ℚ), -3600] [0, 1] rfl (by decide)
     (List.Chain.cons (by norm_num) List.Chain.nil)⟩

/-! ## Claims about the outlier filter and renumbering -/

lemma enumFrom_map_snd :
    ∀ (l : List CycleData) (n : ℕ), (l.enumFrom n).map Prod.snd = l := by
  intro l
  induction l with
  | nil => intro n; rfl
  | cons c cs ih => intro n; simp only [List.enumFrom, List.map_cons, ih]

lemma cleanAux_eq (Qd Qd_med : List ℚ) :
    ∀ (cs : List CycleData) (i0 idx0 : ℕ),
      cleanAux Qd Qd_med i0 idx0 cs =
        renumber idx0 (((cs.enumFrom i0).filter
          (fun p => keepB Qd Qd_med p.1)).map Prod.snd) := by
  intro cs
  induction cs with
  | nil => intro i0 idx0; rfl
  | cons c cs ih =>
    intro i0 idx0
    by_cases h : keepB Qd Qd_med i0 = true
    · simp [cleanAux, List.enumFrom, List.filter_cons, h, renumber, ih]
    · have h' : keepB Qd Qd_med i0 = false := by simpa using h
      simp [cleanAux, List.enumFrom, List.filter_cons, h', ih]

lemma renumber_length :
    ∀ (l : List CycleData) (idx0 : ℕ), (renumber idx0 l).length = l.length := by
  intro l
  induction l with
  | nil => intro idx0; rfl
  | cons c cs ih => intro idx0; simp [renumber, ih]

lemma renumber_map_number :
    ∀ (l : List CycleData) (idx0 : ℕ),
      (renumber idx0 l).map (fun c => c.cycle_number) =
        (List.range l.length).map (fun j => idx0 + j + 1) := by
  intro l
  induction l with
  | nil => intro idx0; rfl
  | cons c cs ih =>
    intro idx0
    simp only [renumber, List.map_cons, List.length_cons, List.range_succ_eq_map,
      List.map_map, ih]
    congr 1
    apply List.map_congr_left
    intro j _
    simp only [Function.comp_apply, Nat.succ_eq_add_one]
    omega

lemma renumber_map_strip :
    ∀ (l : List CycleData) (idx0 : ℕ),
      (renumber idx0 l).map stripNumber = l.map stripNumber := by
  intro l
  induction l with
  | nil => intro idx0; rfl
  | cons c cs ih => intro idx0; simp only [renumber, stripNumber, List.map_cons, ih]

lemma cleanAux_nil_of_all_false (Qd Qd_med : List ℚ)
    (h : ∀ i, keepB Qd Qd_med i = false) :
    ∀ (cs : List CycleData) (i0 idx0 : ℕ), cleanAux Qd Qd_med i0 idx0 cs = [] := by
  intro cs
  induction cs with
  | nil => intro i0 idx0; rfl
  | cons c cs ih => intro i0 idx0; simp [cleanAux, h i0, ih]

lemma dropped_of_clean_empty (rows : List Row) (cs : List CycleData) (med : List ℚ)
    (hb : buildCycles rows = some cs)
    (hm : medfilt (batteryQd cs) (sduWindow (batteryQd cs).length) = some med)
    (hc : cleanCycles cs (batteryQd cs) med = []) :
    processBattery false rows = Except.ok BatteryOutcome.dropped := by
  by_cases hlen : (batteryQd cs).length = 0
  · simp [processBattery, hb, hlen]
  · simp [processBattery, hb, hlen, hm, hc]

/-- C1: given that `Qd_med` is the median-filtered peak sequence, the
cleaning loop keeps exactly those cycles whose peak deviates from the
smoothed value by strictly less than three times the median absolute
deviation and whose peak strictly exceeds 0.1 Ah (the kept cycles being
renumbered consecutively); in particular a cycle whose peak is exactly
0.1 Ah always fails the keep test. -/
theorem outlier_filter_keep_iff (cycles : List CycleData) (Qd_med : List ℚ)
    (_hmed : medfilt (batteryQd cycles)
      (sduWindow (batteryQd cycles).length) = some Qd_med) :
    cleanCycles cycles (batteryQd cycles) Qd_med =
      renumber 0 (((cycles.enumFrom 0).filter (fun p =>
        decide (|(batteryQd cycles).getD p.1 0 - Qd_med.getD p.1 0| <
            3 * computeThs (batteryQd cycles) Qd_med
          ∧ (batteryQd cycles).getD p.1 0 > 1/10))).map Prod.snd)
    ∧ (∀ i, (batteryQd cycles).getD i 0 = 1/10 →
        keepB (batteryQd cycles) Qd_med i = false) := by
  constructor
  · rw [cleanCycles, cleanAux_eq]
    have hpred : (fun p : ℕ × CycleData => keepB (batteryQd cycles) Qd_med p.1) =
        (fun p : ℕ × CycleData =>
          decide (|(batteryQd cycles).getD p.1 0 - Qd_med.getD p.1 0| <
              3 * computeThs (batteryQd cycles) Qd_med
            ∧ (batteryQd cycles).getD p.1 0 > 1/10)) := by
      funext p
      simp [keepB, shouldKeep]
    rw [hpred]
  · intro i hQ
    unfold keepB
    rw [hQ]
    simp

/-- Witness for C1: on five cycles with peaks `[1, 3, 2, 5, 4]` and their
median-filtered sequence `[1, 2, 3, 3, 2]` the threshold is 1, every
deviation is below 3 and every peak exceeds 0.1, so all five cycles are
kept and renumbered `1..5`. -/
theorem outlier_filter_keep_iff_witness :
    cleanCycles cyclesVaried (batteryQd cyclesVaried) medVaried =
      [⟨1, [], [], [], [], [1]⟩, ⟨2, [], [], [], [], [3]⟩,
       ⟨3, [], [], [], [], [2]⟩, ⟨4, [], [], [], [], [5]⟩,
       ⟨5, [], [], [], [], [4]⟩] := by
  have h := outlier_filter_keep_iff cyclesVaried medVaried (by decide)
  exact h.1.trans (by decide)

/-- C6: surviving cycles carry exactly the cycle numbers `1..K` (where `K`
is the surviving count), their data is a subsequence of the original
cycles in original relative order, and a battery whose clean list is empty
is dropped with no output record. -/
theorem renumber_consecutive_spec (cycles : List CycleData) (Qd Qd_med : List ℚ)
    (rows : List Row) :
    ((cleanCycles cycles Qd Qd_med).map (fun c => c.cycle_number) =
      (List.range (cleanCycles cycles Qd Qd_med).length).map (fun j => j + 1))
    ∧ List.Sublist ((cleanCycles cycles Qd Qd_med).map stripNumber)
        (cycles.map stripNumber)
    ∧ (∀ cs med, buildCycles rows = some cs →
        medfilt (batteryQd cs) (sduWindow (batteryQd cs).length) = some med →
        cleanCycles cs (batteryQd cs) med = [] →
        processBattery false rows = Except.ok BatteryOutcome.dropped) := by
  refine ⟨?_, ?_, fun cs med hb hm hc => dropped_of_clean_empty rows cs med hb hm hc⟩
  · rw [cleanCycles, cleanAux_eq, renumber_map_number, renumber_length]
    apply List.map_congr_left
    intro j _
    omega
  · rw [cleanCycles, cleanAux_eq, renumber_map_strip]
    have h2 : List.Sublist
        ((((cycles.enumFrom 0).filter
          (fun p => keepB Qd Qd_med p.1)).map Prod.snd)) cycles := by
      have h1 := (List.filter_sublist (p := fun p => keepB Qd Qd_med p.1)
        (cycles.enumFrom 0)).map Prod.snd
      rwa [enumFrom_map_snd] at h1
    exact h2.map stripNumber

/-- Witness for C6: the five kept cycles of the varied-peaks battery are
numbered `1..5`, and the constant-peaks battery (whose clean list is
empty) is dropped. -/
theorem renumber_consecutive_spec_witness :
    ((cleanCycles cyclesVaried (batteryQd cyclesVaried) medVaried).map
        (fun c => c.cycle_number) = [1, 2, 3, 4, 5])
    ∧ processBattery false rowsConstPeaks = Except.ok BatteryOutcome.dropped := by
  have h := renumber_consecutive_spec cyclesVaried (batteryQd cyclesVaried)
    medVaried rowsConstPeaks
  exact ⟨h.1.trans (by decide),
    h.2.2 cyclesConstPeaks medConstPeaks (by decide) (by decide) (by decide)⟩

/-- C10: when the robust threshold is exactly 0 — as for a battery whose
per-cycle peaks all equal their median-filtered values — the strict
comparison rejects every cycle, the clean list is empty, and the battery
is dropped with no output record. -/
theorem zero_threshold_rejects_all (cycles : List CycleData) (Qd_med : List ℚ)
    (hths : computeThs (batteryQd cycles) Qd_med = 0) :
    (∀ i, keepB (batteryQd cycles) Qd_med i = false)
    ∧ cleanCycles cycles (batteryQd cycles) Qd_med = []
    ∧ (∀ rows, buildCycles rows = some cycles →
        medfilt (batteryQd cycles) (sduWindow (batteryQd cycles).length) =
          some Qd_med →
        processBattery false rows = Except.ok BatteryOutcome.dropped) := by
  have hkeep : ∀ i, keepB (batteryQd cycles) Qd_med i = false := by
    intro i
    have hnot : ¬(|(batteryQd cycles).getD i 0 - Qd_med.getD i 0| <
        3 * computeThs (batteryQd cycles) Qd_med) := by
      rw [hths, mul_zero]
      exact not_lt.mpr (abs_nonneg _)
    unfold keepB shouldKeep
    rw [decide_eq_false hnot]
    rfl
  have hclean : cleanCycles cycles (batteryQd cycles) Qd_med = [] :=
    cleanAux_nil_of_all_false _ _ hkeep cycles 0 0
  exact ⟨hkeep, hclean,
    fun rows hb hm => dropped_of_clean_empty rows cycles Qd_med hb hm hclean⟩

/-- Witness for C10: the constant-peaks battery has `Qd = [1, 1, 1]`,
median-filtered to `[1, 1, 1]`, hence threshold 0, and it is dropped even
though its cycles are identical and non-degenerate (peak 1 Ah > 0.1 Ah). -/
theorem zero_threshold_rejects_all_witness :
    computeThs (batteryQd cyclesConstPeaks) medConstPeaks = 0
    ∧ processBattery false rowsConstPeaks = Except.ok BatteryOutcome.dropped := by
  have h := zero_threshold_rejects_all cyclesConstPeaks medConstPeaks (by decide)
  exact ⟨by decide, h.2.2 rowsConstPeaks (by decide) (by decide)⟩

/-! ## Claims about the median-filter window and error isolation -/

/-- C2 counterexample: for a battery with exactly 2 cycles the computed
window is the even number 2 and no clamping takes place — the median
filter rejects the kernel (scipy raises `ValueError`) and the battery's
processing fails, whereas the claimed clamped window 1 would have
succeeded. -/
theorem window_clamp_counterexample :
    sduWindow 2 = 2
    ∧ medfilt [(0 : ℚ), 0] (sduWindow 2) = none
    ∧ claimedWindow 2 = 1
    ∧ medfilt [(0 : ℚ), 0] (claimedWindow 2) = some [0, 0]
    ∧ processBattery false rowsTwoCycles = Except.error PipelineError.evenKernel :=
  ⟨rfl, rfl, rfl, by decide, rfl⟩

/-- C2 amended: the window is 21 when at least 21 cycles exist and
`min(cycle count, 5)` otherwise; this window is even exactly for cycle
counts 2 and 4, and then the median filter rejects it (`ValueError`,
aborting the battery) instead of clamping, while every odd window is
applied as computed. -/
theorem window_size_spec (Qd : List ℚ) (hne : Qd ≠ []) :
    (Qd.length ≥ 21 → sduWindow Qd.length = 21)
    ∧ (Qd.length < 21 → sduWindow Qd.length = min Qd.length 5)
    ∧ (sduWindow Qd.length % 2 = 0 ↔ Qd.length = 2 ∨ Qd.length = 4)
    ∧ (sduWindow Qd.length % 2 = 1 →
        medfilt Qd (sduWindow Qd.length) =
          some (medfiltList Qd (sduWindow Qd.length)))
    ∧ (sduWindow Qd.length % 2 = 0 → medfilt Qd (sduWindow Qd.length) = none) := by
  have hlen : 1 ≤ Qd.length := by
    cases Qd with
    | nil => exact absurd rfl hne
    | cons a l => simp
  refine ⟨?_, ?_, ?_, ?_, ?_⟩
  · intro h
    simp [sduWindow, h]
  · intro h
    rw [sduWindow, if_neg (by omega)]
  · unfold sduWindow
    by_cases h : Qd.length ≥ 21
    · rw [if_pos h]
      omega
    · rw [if_neg h]
      omega
  · intro h
    rw [medfilt, if_pos h]
  · intro h
    rw [medfilt, if_neg (by omega)]

/-- Witness for C2's amended claim at a 3-cycle battery: the window is
`min(3, 5) = 3` (odd) and the filter is applied with it. -/
theorem window_size_spec_witness :
    sduWindow [(1 : ℚ), 1, 1].length = 3
    ∧ medfilt [(1 : ℚ), 1, 1] (sduWindow [(1 : ℚ), 1, 1].length) = some [1, 1, 1] := by
  have h := window_size_spec [(1 : ℚ), 1, 1] (by simp)
  refine ⟨by simpa using h.2.1 (by norm_num), ?_⟩
  rw [h.2.2.2.1 (by decide)]
  rfl

/-- C5 counterexample: a batch with one readable file holding one battery
group of exactly two cycles makes the whole top-level `process` fail with
the median filter's `ValueError` — the battery-group failure is not
absorbed. -/
theorem battery_error_propagates_counterexample :
    process [FileInput.readable [(false, rowsTwoCycles)]] =
      Except.error PipelineError.evenKernel := by
  rfl

/-- C5 amended: an exception while reading a single file is absorbed (the
file is skipped and the batch continues exactly as without it), but an
exception raised while processing a battery group is not caught and
propagates out of the top-level entry point, aborting the batch. -/
theorem error_isolation_spec (rest : List FileInput) (gs : List (Bool × List Row))
    (ap : Bool) (rows : List Row) (e : PipelineError)
    (h : processBattery ap rows = Except.error e) :
    process (FileInput.unreadable :: rest) = process rest
    ∧ process (FileInput.readable ((ap, rows) :: gs) :: rest) = Except.error e := by
  constructor
  · simp only [process]
    cases hrest : process rest with
    | error e' => rfl
    | ok v =>
      obtain ⟨p, s, d⟩ := v
      simp
  · simp only [process, processGroups, h]

/-- Witness for C5's amended claim: the unreadable file is absorbed, and
the two-cycle battery's error aborts the batch. -/
theorem error_isolation_spec_witness :
    process [FileInput.unreadable] = process []
    ∧ process [FileInput.readable [(false, rowsTwoCycles)]] =
      Except.error PipelineError.evenKernel :=
  error_isolation_spec [] [] false rowsTwoCycles PipelineError.evenKernel rfl

/-! ## Claims about the return contract of the driver -/

lemma processBattery_true_eq (rows : List Row) :
    processBattery true rows = Except.ok BatteryOutcome.skipped := rfl

lemma processBattery_false_cases (rows : List Row) :
    processBattery false rows = Except.error PipelineError.emptyInput
    ∨ processBattery false rows = Except.error PipelineError.evenKernel
    ∨ processBattery false rows = Except.ok BatteryOutcome.dropped
    ∨ ∃ b, processBattery false rows = Except.ok (BatteryOutcome.dumped b) := by
  cases hb : buildCycles rows with
  | none =>
    left
    simp [processBattery, hb]
  | some cs =>
    by_cases hlen : (batteryQd cs).length = 0
    · right; right; left
      simp [processBattery, hb, hlen]
    · cases hm : medfilt (batteryQd cs) (sduWindow (batteryQd cs).length) with
      | none =>
        right; left
        simp [processBattery, hb, hlen, hm]
      | some med =>
        by_cases hc : (cleanCycles cs (batteryQd cs) med).length = 0
        · right; right; left
          simp [processBattery, hb, hlen, hm, hc]
        · right; right; right
          refine ⟨{ cycle_data := cleanCycles cs (batteryQd cs) med,
                    nominal_capacity_in_Ah :=
                      nominalCapacity (cleanCycles cs (batteryQd cs) med) }, ?_⟩
          simp [processBattery, hb, hlen, hm, hc]

lemma processBattery_false_ne_skipped (rows : List Row) :
    processBattery false rows ≠ Except.ok BatteryOutcome.skipped := by
  rcases processBattery_false_cases rows with h | h | h | ⟨b, h⟩ <;> rw [h] <;> simp

lemma battery_flag_of_outcome (g : Bool × List Row) :
    (processBattery g.1 g.2 = Except.ok BatteryOutcome.skipped → g.1 = true)
    ∧ (processBattery g.1 g.2 ≠ Except.ok BatteryOutcome.skipped → g.1 = false) := by
  cases hap : g.1 with
  | true =>
    refine ⟨fun _ => rfl, fun hne => ?_⟩
    exact absurd (processBattery_true_eq g.2) hne
  | false =>
    exact ⟨fun h => absurd h (processBattery_false_ne_skipped g.2), fun _ => rfl⟩

lemma processGroups_spec :
    ∀ (gs : List (Bool × List Row)) (p s : ℕ) (ds : List BatteryData),
      processGroups gs = Except.ok (p, s, ds) →
      p = ds.length
      ∧ p = gs.countP (fun g => isDumpedB (processBattery g.1 g.2))
      ∧ s = gs.countP (fun g => g.1)
      ∧ p + s + gs.countP (fun g => isDroppedB (processBattery g.1 g.2)) =
          gs.length := by
  intro gs
  induction gs with
  | nil =>
    intro p s ds h
    simp only [processGroups, Except.ok.injEq, Prod.mk.injEq] at h
    obtain ⟨rfl, rfl, rfl⟩ := h
    simp
  | cons g gs ih =>
    intro p s ds h
    simp only [processGroups] at h
    cases hr : processBattery g.1 g.2 with
    | error e => rw [hr] at h; simp at h
    | ok r =>
      rw [hr] at h
      cases hrec : processGroups gs with
      | error e => rw [hrec] at h; simp at h
      | ok v =>
        obtain ⟨p', s', ds'⟩ := v
        rw [hrec] at h
        have IH := ih p' s' ds' hrec
        have h1 := IH.1
        have h2 := IH.2.1
        have h3 := IH.2.2.1
        have h4 := IH.2.2.2
        cases r with
        | skipped =>
          simp only [Except.ok.injEq, Prod.mk.injEq] at h
          obtain ⟨rfl, rfl, rfl⟩ := h
          have hg : g.1 = true := (battery_flag_of_outcome g).1 hr
          have hdu : isDumpedB (processBattery g.1 g.2) = false := by rw [hr]; rfl
          have hdr : isDroppedB (processBattery g.1 g.2) = false := by rw [hr]; rfl
          refine ⟨h1, ?_, ?_, ?_⟩
          · simp [List.countP_cons, hdu, h2]
          · simp [List.countP_cons, hg, h3]
          · simp [List.countP_cons, hdr]
            omega
        | dropped =>
          simp only [Except.ok.injEq, Prod.mk.injEq] at h
          obtain ⟨rfl, rfl, rfl⟩ := h
          have hg : g.1 = false := (battery_flag_of_outcome g).2 (by rw [hr]; simp)
          have hdu : isDumpedB (processBattery g.1 g.2) = false := by rw [hr]; rfl
          have hdr : isDroppedB (processBattery g.1 g.2) = true := by rw [hr]; rfl
          refine ⟨h1, ?_, ?_, ?_⟩
          · simp [List.countP_cons, hdu, h2]
          · simp [List.countP_cons, hg, h3]
          · simp [List.countP_cons, hdr]
            omega
        | dumped b =>
          simp only [Except.ok.injEq, Prod.mk.injEq] at h
          obtain ⟨rfl, rfl, rfl⟩ := h
          have hg : g.1 = false := (battery_flag_of_outcome g).2 (by rw [hr]; simp)
          have hdu : isDumpedB (processBattery g.1 g.2) = true := by rw [hr]; rfl
          have hdr : isDroppedB (processBattery g.1 g.2) = false := by rw [hr]; rfl
          refine ⟨by simp [h1], ?_, ?_, ?_⟩
          · simp [List.countP_cons, hdu]
            omega
          · simp [List.countP_cons, hg, h3]
          · simp [List.countP_cons, hdr]
            omega

/-- C7: when the top-level entry point returns, its processed count equals
the number of persisted records and the number of battery groups whose
outcome was a dump, its skip count equals the number of battery groups
whose skip/resume check reported them as already processed, dropped
batteries are counted in neither component, and an already-processed
battery is skipped with no recomputation (its outcome is `skipped` no
matter what its rows contain). -/
theorem process_return_contract (files : List FileInput) (p s : ℕ)
    (ds : List BatteryData) (h : process files = Except.ok (p, s, ds)) :
    p = ds.length
    ∧ p = (allGroups files).countP (fun g => isDumpedB (processBattery g.1 g.2))
    ∧ s = (allGroups files).countP (fun g => g.1)
    ∧ p + s +
        (allGroups files).countP (fun g => isDroppedB (processBattery g.1 g.2)) =
        (allGroups files).length
    ∧ (∀ rows, processBattery true rows = Except.ok BatteryOutcome.skipped) := by
  revert h
  induction files generalizing p s ds with
  | nil =>
    intro h
    simp only [process, Except.ok.injEq, Prod.mk.injEq] at h
    obtain ⟨rfl, rfl, rfl⟩ := h
    exact ⟨rfl, rfl, rfl, rfl, fun rows => processBattery_true_eq rows⟩
  | cons f fs ih =>
    intro h
    cases f with
    | unreadable =>
      simp only [process] at h
      cases hrec : process fs with
      | error e => rw [hrec] at h; simp at h
      | ok v =>
        obtain ⟨p₂, s₂, d₂⟩ := v
        rw [hrec] at h
        simp only [Except.ok.injEq, Prod.mk.injEq, Nat.zero_add,
          List.nil_append] at h
        obtain ⟨rfl, rfl, rfl⟩ := h
        have IH := ih p₂ s₂ d₂ hrec
        simpa [allGroups, fileGroups] using IH
    | readable gs =>
      simp only [process] at h
      cases hgs : processGroups gs with
      | error e => rw [hgs] at h; simp at h
      | ok v =>
        obtain ⟨p₁, s₁, d₁⟩ := v
        rw [hgs] at h
        cases hrec : process fs with
        | error e => rw [hrec] at h; simp at h
        | ok w =>
          obtain ⟨p₂, s₂, d₂⟩ := w
          rw [hrec] at h
          simp only [Except.ok.injEq, Prod.mk.injEq] at h
          obtain ⟨rfl, rfl, rfl⟩ := h
          have IH := ih p₂ s₂ d₂ hrec
          have HG := processGroups_spec gs p₁ s₁ d₁ hgs
          have hall : allGroups (FileInput.readable gs :: fs) =
              gs ++ allGroups fs := by
            simp [allGroups, fileGroups]
          rw [hall]
          refine ⟨?_, ?_, ?_, ?_, fun rows => processBattery_true_eq rows⟩
          · simp [List.length_append, HG.1, IH.1]
          · rw [List.countP_append, HG.2.1, IH.2.1]
          · rw [List.countP_append, HG.2.2.1, IH.2.2.1]
          · rw [List.countP_append, List.length_append]
            have h1 := HG.2.2.2
            have h2 := IH.2.2.2.1
            omega

/-- Witness for C7 on a concrete batch (`sampleFiles`): one battery is
already processed (counted only as a skip), one is dropped by the filter
(counted in neither bucket), the unreadable file contributes nothing, and
the returned counters are `(0, 1)` with no persisted record. -/
theorem process_return_contract_witness :
    (0 : ℕ) = ([] : List BatteryData).length
    ∧ (0 : ℕ) =
        (allGroups sampleFiles).countP (fun g => isDumpedB (processBattery g.1 g.2))
    ∧ (1 : ℕ) = (allGroups sampleFiles).countP (fun g => g.1)
    ∧ 0 + 1 +
        (allGroups sampleFiles).countP (fun g => isDroppedB (processBattery g.1 g.2)) =
        (allGroups sampleFiles).length
    ∧ (∀ rows, processBattery true rows = Except.ok BatteryOutcome.skipped) :=
  process_return_contract sampleFiles 0 1 [] rfl

end SDU
